import Mathlib

/-!
A shallow embedding of the rename/caption pipeline of `src/App.tsx`
(Vision AI Renamer).

Pure string/list computations are transcribed one-to-one from the
source.  The React component state (`uploadedFiles`) is modelled by
explicit state passing; the reactive `useEffect` driver together with
the asynchronous resolution of the remote captioning call is modelled
by a step relation `Step` on an application state `AppState`.

The id generator `Math.random().toString(36).substr(2, 9)` is a random
source without any uniqueness guarantee; it is modelled by an oracle
`Nat → String` consumed left to right, one draw per ingested file.
Every concrete value stream that `Math.random` can produce corresponds
to one oracle, so a property quantified over all oracles holds of the
program, and a single concrete oracle suffices for a counterexample.

The spec calls `aiTitle` "captionText"; both names refer to the same
field.  The `preview` field (`URL.createObjectURL(file)`) is a
display-only object URL that no verified operation reads, and the
binary payload of a `File` is opaque to all of the code below, so a
file is modelled by the two components the pipeline does read:
`file.name` and `file.type`.
-/

namespace VisionRenamer

/-- The four lifecycle states of `uploadedFiles[i].status` in `App.tsx`. -/
inductive Status where
  | idle
  | processing
  | done
  | error
  deriving DecidableEq

/-- The parts of a browser `File` object that the pipeline reads:
`file.name` and `file.type` (the declared media type). -/
structure FileData where
  name : String
  type : String
  deriving DecidableEq

/-- One entry of the `uploadedFiles` state array of `App.tsx`
(spec: **QueueItem**).  `aiTitle` is the spec's `captionText`. -/
structure QueueItem where
  file : FileData
  id : String
  aiTitle : Option String
  status : Status
  deriving DecidableEq

/-- The `RenameSettings` record of `types.ts`: `{ startNumber, zeroPad }`.
`startNumber` comes from `parseInt` on a numeric input, hence an integer. -/
structure RenameSettings where
  startNumber : Int
  zeroPad : Nat
  deriving DecidableEq

/-! ### Ingestion queue (`addFilesToQueue`, `clearFiles`) -/

/-- The `files.map(file => ({...}))` body of `addFilesToQueue`: each file
becomes a fresh item with `status: 'idle'`, `aiTitle: undefined` and an
id drawn from the random source (`Math.random().toString(36).substr(2, 9)`),
modelled as one oracle draw per file, in order. -/
def mkQueueItems (oracle : Nat → String) : Nat → List FileData → List QueueItem
  | _, [] => []
  | next, f :: fs =>
    { file := f, id := oracle next, aiTitle := none, status := Status.idle } ::
      mkQueueItems oracle (next + 1) fs

/-- `addFilesToQueue` of `App.tsx`:
`setUploadedFiles(prev => [...prev, ...newFiles].slice(0, 200))`. -/
def addFilesToQueue (oracle : Nat → String) (next : Nat)
    (prev : List QueueItem) (files : List FileData) : List QueueItem :=
  (prev ++ mkQueueItems oracle next files).take 200

/-- `clearFiles` of `App.tsx`: `setUploadedFiles([])` (the
`URL.revokeObjectURL` calls only touch the unmodelled preview handles). -/
def clearFiles (_queue : List QueueItem) : List QueueItem := []

/-! ### Caption sanitization (`processFileWithAi`, success path) -/

/-- Decides the character class `[a-z0-9-]` of the regex
`.replace(/[^a-z0-9-]/g, '')`. -/
def isAllowedChar (c : Char) : Bool :=
  (decide ('a' ≤ c) && decide (c ≤ 'z')) ||
    (decide ('0' ≤ c) && decide (c ≤ '9')) || decide (c = '-')

/-- `.replace(/\s+/g, '-')`: each maximal whitespace run becomes a single
hyphen.  The boolean argument records whether the previous character was
whitespace (i.e. whether we are inside a run that already emitted its
hyphen). -/
def collapseWs : Bool → List Char → List Char
  | _, [] => []
  | prevWs, c :: rest =>
    if c.isWhitespace then
      if prevWs then collapseWs true rest else '-' :: collapseWs true rest
    else c :: collapseWs false rest

/-- JavaScript `String.prototype.trim`: drop leading and trailing
whitespace. -/
def jsTrim (l : List Char) : List Char :=
  ((l.dropWhile Char.isWhitespace).reverse.dropWhile Char.isWhitespace).reverse

/-- The `cleanTitle` computation of `processFileWithAi`:
`rawText.trim().toLowerCase().replace(/\s+/g, '-').replace(/[^a-z0-9-]/g, '').substring(0, 190)`. -/
def sanitizeChars (l : List Char) : List Char :=
  ((collapseWs false ((jsTrim l).map Char.toLower)).filter isAllowedChar).take 190

/-- String version of `sanitizeChars`. -/
def sanitizeCaption (s : String) : String := String.mk (sanitizeChars s.data)

/-- The fallback string of `const rawText = response.text || '...'`. -/
def placeholder : String := "high-fidelity-image-description"

/-- JavaScript `a || b` for an optional string `a`: `undefined` and the
empty string are both falsy. -/
def jsOrDefault (t : Option String) (d : String) : String :=
  match t with
  | none => d
  | some s => if s = "" then d else s

/-! ### The two phases of `processFileWithAi` -/

/-- JavaScript `s.startsWith(p)` on the character level. -/
def startsWithChars : List Char → List Char → Bool
  | _, [] => true
  | [], _ :: _ => false
  | c :: cs, p :: ps => c == p && startsWithChars cs ps

/-- JavaScript `String.prototype.startsWith`. -/
def jsStartsWith (s p : String) : Bool := startsWithChars s.data p.data

/-- The guard of `processFileWithAi`:
`const item = uploadedFiles.find(f => f.id === id);
if (!item || !item.file.type.startsWith('image/')) return;`. -/
def captionGuard (queue : List QueueItem) (id : String) : Bool :=
  match queue.find? (fun f => decide (f.id = id)) with
  | none => false
  | some item => jsStartsWith item.file.type "image/"

/-- The per-item update of
`prev.map(f => f.id === id ? { ...f, status: 'processing' } : f)`. -/
def setProcessing (id : String) (f : QueueItem) : QueueItem :=
  if f.id = id then { f with status := Status.processing } else f

/-- The synchronous phase of `processFileWithAi id`: if the guard fails the
call returns with no state change, otherwise every item whose id matches is
flipped to `processing` (and the remote call is issued). -/
def processFileWithAiStart (queue : List QueueItem) (id : String) : List QueueItem :=
  if captionGuard queue id then queue.map (setProcessing id) else queue

/-- How one invocation of the remote captioning call can resolve: either the
promise chain succeeds and `response.text` is the given optional string, or
anything in the `try` block throws/rejects. -/
inductive CaptionOutcome where
  | success (text : Option String)
  | failure

/-- The per-item update applied when the remote call resolves: on success
`{ ...f, aiTitle: cleanTitle, status: 'done' }`, in the `catch` block
`{ ...f, status: 'error' }`, each applied to every item whose id matches. -/
def applyOutcome (id : String) (outcome : CaptionOutcome) (f : QueueItem) : QueueItem :=
  match outcome with
  | CaptionOutcome.success t =>
    if f.id = id then
      { f with aiTitle := some (sanitizeCaption (jsOrDefault t placeholder)),
               status := Status.done }
    else f
  | CaptionOutcome.failure =>
    if f.id = id then { f with status := Status.error } else f

/-- The asynchronous phase of `processFileWithAi id`: the state update run
when the remote call resolves (over whatever the queue is at that moment). -/
def processFileWithAiResolve (queue : List QueueItem) (id : String)
    (outcome : CaptionOutcome) : List QueueItem :=
  queue.map (applyOutcome id outcome)

/-! ### Archive building (`downloadRenamedFiles`) -/

/-- Index of the last occurrence of `c`, scanning from position `i`. -/
def lastIndexOfAux (c : Char) : List Char → Nat → Option Nat
  | [], _ => none
  | x :: xs, i =>
    match lastIndexOfAux c xs (i + 1) with
    | some j => some j
    | none => if x = c then some i else none

/-- JavaScript `s.lastIndexOf(c)`: the last index, or `-1` if absent. -/
def jsLastIndexOf (s : String) (c : Char) : Int :=
  match lastIndexOfAux c s.data 0 with
  | none => -1
  | some i => (i : Int)

/-- JavaScript `s.substring(start)`: a negative start is clamped to `0`. -/
def jsSubstringFrom (s : String) (start : Int) : String :=
  String.mk (s.data.drop start.toNat)

/-- `const ext = item.file.name.substring(item.file.name.lastIndexOf('.'))`. -/
def jsExt (name : String) : String := jsSubstringFrom name (jsLastIndexOf name '.')

/-- JavaScript `Number.prototype.toString` (base 10) on an integer value. -/
def intRepr (n : Int) : String :=
  if n < 0 then "-" ++ Nat.repr (-n).toNat else Nat.repr n.toNat

/-- JavaScript `s.padStart(w, c)` for a one-character pad string: prepend
copies of `c` up to width `w`; never truncates. -/
def padStart (s : String) (w : Nat) (c : Char) : String :=
  String.mk (List.replicate (w - s.data.length) c ++ s.data)

/-- A JavaScript template literal `${x}` for an optional string: an
`undefined` field renders as the string `"undefined"`. -/
def jsTemplate (o : Option String) : String :=
  match o with
  | none => "undefined"
  | some s => s

/-- The entry name built for the item at 0-based `index` among the filtered
done items: `` `${item.aiTitle}-${num}${ext}` `` with
`num = (settings.startNumber + index).toString().padStart(settings.zeroPad, '0')`. -/
def newName (settings : RenameSettings) (item : QueueItem) (index : Nat) : String :=
  jsTemplate item.aiTitle ++ "-" ++
    padStart (intRepr (settings.startNumber + (index : Int))) settings.zeroPad '0' ++
    jsExt item.file.name

/-- The `finished.forEach((item, index) => { ... zip.file(newName, item.file); })`
loop: the sequence of (name, content) pairs handed to the archive builder,
in queue order.  The zip library itself is the opaque collaborator of the
spec (§6), so the archive is modelled as this sequence. -/
def buildEntries (settings : RenameSettings) : List QueueItem → Nat → List (String × FileData)
  | [], _ => []
  | item :: rest, index =>
    (newName settings item index, item.file) :: buildEntries settings rest (index + 1)

/-- `downloadRenamedFiles` of `App.tsx`: filter to `status === 'done'`;
if nothing is finished, alert `"No files processed by AI yet."` and stop;
otherwise build the archive entries. -/
def downloadRenamedFiles (queue : List QueueItem) (settings : RenameSettings) :
    Except String (List (String × FileData)) :=
  if (queue.filter (fun f => decide (f.status = Status.done))).length = 0 then
    Except.error "No files processed by AI yet."
  else
    Except.ok (buildEntries settings (queue.filter (fun f => decide (f.status = Status.done))) 0)

/-! ### The session state machine

`AppState` carries the component state (`uploadedFiles`), the ids of
remote calls that were issued but have not resolved (`inFlight`), and the
bookkeeping of the random source: `next` counts the draws made so far and
`created` lists the id of every `QueueItem` ever created, in creation
order (including items discarded by the 200-cap and items removed by
`clearFiles`). -/

structure AppState where
  uploadedFiles : List QueueItem
  inFlight : List String
  created : List String
  next : Nat
  deriving DecidableEq

/-- The state before any interaction. -/
def initState : AppState := { uploadedFiles := [], inFlight := [], created := [], next := 0 }

/-- Effect of `addFilesToQueue` on the session state. -/
def enqueueOp (oracle : Nat → String) (s : AppState) (files : List FileData) : AppState :=
  { uploadedFiles := addFilesToQueue oracle s.next s.uploadedFiles files,
    inFlight := s.inFlight,
    created := s.created ++ (mkQueueItems oracle s.next files).map QueueItem.id,
    next := s.next + files.length }

/-- Effect of the synchronous phase of `processFileWithAi id`: the queue is
updated and, exactly when the guard passed (so a remote call was issued),
`id` joins the in-flight set. -/
def captionStartOp (s : AppState) (id : String) : AppState :=
  { s with uploadedFiles := processFileWithAiStart s.uploadedFiles id,
           inFlight :=
             if captionGuard s.uploadedFiles id then s.inFlight ++ [id] else s.inFlight }

/-- Effect of the resolution of an in-flight call. -/
def captionResolveOp (s : AppState) (id : String) (outcome : CaptionOutcome) : AppState :=
  { s with uploadedFiles := processFileWithAiResolve s.uploadedFiles id outcome,
           inFlight := s.inFlight.erase id }

/-- Effect of `clearFiles`: the queue empties; already-issued remote calls
stay pending (their eventual state update finds no matching id). -/
def clearOp (s : AppState) : AppState := { s with uploadedFiles := [] }

/-- One observable transition of the session.  `captionStart` is driven by
the `useEffect` of `App.tsx`, which fires only when some item is `idle` and
passes the id of the first such item; `captionResolve` fires only for a
call that is actually in flight.  `archive` (`downloadRenamedFiles`) never
mutates the queue, the settings, or the bookkeeping. -/
inductive Step (oracle : Nat → String) : AppState → AppState → Prop
  | enqueue (s : AppState) (files : List FileData) :
      Step oracle s (enqueueOp oracle s files)
  | captionStart (s : AppState) (item : QueueItem)
      (hfind : s.uploadedFiles.find? (fun f => decide (f.status = Status.idle)) = some item) :
      Step oracle s (captionStartOp s item.id)
  | captionResolve (s : AppState) (id : String) (outcome : CaptionOutcome)
      (hid : id ∈ s.inFlight) :
      Step oracle s (captionResolveOp s id outcome)
  | archive (s : AppState) :
      Step oracle s s
  | clear (s : AppState) :
      Step oracle s (clearOp s)

/-- States reachable from the initial state under a given random stream. -/
inductive Reachable (oracle : Nat → String) : AppState → Prop
  | init : Reachable oracle initState
  | step {s s' : AppState} : Reachable oracle s → Step oracle s s' → Reachable oracle s'

/-- The forward order on statuses described by the spec:
`idle → processing → {done | error}`. -/
def statusLE : Status → Status → Bool
  | Status.idle, _ => true
  | Status.processing, Status.idle => false
  | Status.processing, _ => true
  | Status.done, Status.done => true
  | Status.done, _ => false
  | Status.error, Status.error => true
  | Status.error, _ => false

/-- The reachable-state invariant of the session, valid whenever the random
source never repeats a draw.  It packages: the created-id ledger equals the
consumed prefix of the oracle; every queued item's id is a past draw;
queued ids are pairwise distinct; in-flight ids are past draws, pairwise
distinct, and the queue items carrying them are `processing`; `aiTitle` is
present exactly on `done` items; and non-image items are always `idle`. -/
structure Inv (oracle : Nat → String) (s : AppState) : Prop where
  created_eq : s.created = (List.range s.next).map oracle
  queue_ids : ∀ item ∈ s.uploadedFiles, ∃ k, k < s.next ∧ item.id = oracle k
  queue_nodup : (s.uploadedFiles.map QueueItem.id).Nodup
  flight_ids : ∀ id ∈ s.inFlight, ∃ k, k < s.next ∧ id = oracle k
  flight_nodup : s.inFlight.Nodup
  flight_processing : ∀ id ∈ s.inFlight, ∀ item ∈ s.uploadedFiles,
    item.id = id → item.status = Status.processing
  title_iff_done : ∀ item ∈ s.uploadedFiles,
    item.aiTitle.isSome = true ↔ item.status = Status.done
  nonimage_idle : ∀ item ∈ s.uploadedFiles,
    jsStartsWith item.file.type "image/" = false → item.status = Status.idle

/-! ### Definitions used to compare against, and to instantiate, the claims -/

/-- The caption pipeline exactly as the claim words it (lower-case, collapse
whitespace runs to single hyphens, strip characters outside `[a-z0-9-]`,
truncate to 190) — note: with **no** leading/trailing trim step. -/
def claimClean (s : String) : String :=
  String.mk (((collapseWs false (s.data.map Char.toLower)).filter isAllowedChar).take 190)

/-- A random stream that repeats the same draw — one possible behaviour of
`Math.random().toString(36).substr(2, 9)`, which guarantees nothing about
distinctness of consecutive draws. -/
def constOracle : Nat → String := fun _ => "x"

/-- An injective (never-repeating) random stream, for witnesses. -/
def wOracle : Nat → String := fun n => String.mk (List.replicate n 'a')

def fileA : FileData := { name := "a.jpg", type := "image/jpeg" }

def fileB : FileData := { name := "b.jpg", type := "image/jpeg" }

/-- A non-image file (spec §4.1 edge case). -/
def fileC : FileData := { name := "b.txt", type := "text/plain" }

def jpegFile : FileData := { name := "photo.jpg", type := "image/jpeg" }

/-- Demo trace under the repeating random stream: ingest `fileA`. -/
def demoS1 : AppState := enqueueOp constOracle initState [fileA]

/-- ... the reactive driver captions it ... -/
def demoS2 : AppState := captionStartOp demoS1 "x"

/-- ... the call succeeds, `fileA`'s item is `done` ... -/
def demoS3 : AppState :=
  captionResolveOp demoS2 "x" (CaptionOutcome.success (some "nice-photo"))

/-- ... ingest `fileB`, whose freshly drawn id collides with `fileA`'s ... -/
def demoS4 : AppState := enqueueOp constOracle demoS3 [fileB]

/-- ... and the driver picks the idle `fileB` item, but `find`-by-id resolves
to the first matching item (`fileA`, already `done`), passes the image guard,
and the by-id map flips **both** items to `processing`. -/
def demoS5 : AppState := captionStartOp demoS4 "x"

/-- Variant of the collision trace with a non-image second file. -/
def demoT4 : AppState := enqueueOp constOracle demoS3 [fileC]

def demoT5 : AppState := captionStartOp demoT4 "x"

def demoT6 : AppState :=
  captionResolveOp demoT5 "x" (CaptionOutcome.success (some "oops"))

/-- Two files ingested at once under the repeating stream: both get id "x". -/
def c4DemoState : AppState := enqueueOp constOracle initState [fileA, fileB]

/-- The spec §8 scenario queue: one JPEG ingested, captioned successfully
with text `"blue-sky-over-mountains"`. -/
def scenOracle : Nat → String := fun _ => "s"

def scenQueue : List QueueItem :=
  processFileWithAiResolve
    (processFileWithAiStart (addFilesToQueue scenOracle 0 [] [jpegFile]) "s") "s"
    (CaptionOutcome.success (some "blue-sky-over-mountains"))

/-- Witness trace under the injective stream: ingest one JPEG ... -/
def wS1 : AppState := enqueueOp wOracle initState [jpegFile]

/-- ... the driver starts captioning it (its id is `wOracle 0 = ""`) ... -/
def wS2 : AppState := captionStartOp wS1 ""

/-- ... and the call succeeds. -/
def wS3 : AppState := captionResolveOp wS2 "" (CaptionOutcome.success (some "t"))

/-- A finished item used to instantiate archive-side claims. -/
def c1DemoQueue : List QueueItem :=
  [{ file := jpegFile, id := "w", aiTitle := some "blue-sky-over-mountains",
     status := Status.done }]

def c1DemoSettings : RenameSettings := { startNumber := 5, zeroPad := 3 }

/-- An idle item (fresh ingestion). -/
def c3Item : QueueItem := { file := fileA, id := "q", aiTitle := none, status := Status.idle }

/-- A processing item about to receive its caption result. -/
def c9Item : QueueItem := { file := fileA, id := "x", aiTitle := none, status := Status.processing }

/-! ### Helper lemmas: sanitization -/

theorem mem_sanitizeChars_allowed {l : List Char} {c : Char} (h : c ∈ sanitizeChars l) :
    isAllowedChar c = true := by
  unfold sanitizeChars at h
  have h2 := List.mem_of_mem_take h
  exact (List.mem_filter.mp h2).2

theorem sanitizeChars_length_le (l : List Char) : (sanitizeChars l).length ≤ 190 :=
  List.length_take_le 190 _

theorem isAllowedChar_not_whitespace {c : Char} (h : isAllowedChar c = true) :
    c.isWhitespace = false := by
  cases hw : c.isWhitespace
  · rfl
  · exfalso
    have hd : ((c = ' ' ∨ c = '\t') ∨ c = '\r') ∨ c = '\n' := by
      simpa [Char.isWhitespace] using hw
    rcases hd with ((rfl | rfl) | rfl) | rfl <;> exact absurd h (by decide)

theorem sanitizeCaption_allowed {s : String} {c : Char} (h : c ∈ (sanitizeCaption s).data) :
    isAllowedChar c = true :=
  mem_sanitizeChars_allowed h

theorem sanitizeCaption_length_le (s : String) : (sanitizeCaption s).length ≤ 190 :=
  sanitizeChars_length_le s.data

/-! ### Helper lemmas: padding -/

theorem padStart_suffix (s : String) (w : Nat) (c : Char) :
    List.IsSuffix s.data (padStart s w c).data :=
  List.suffix_append _ _

theorem padStart_length (s : String) (w : Nat) (c : Char) :
    (padStart s w c).length = max w s.length := by
  show (List.replicate (w - s.data.length) c ++ s.data).length = max w s.data.length
  rw [List.length_append, List.length_replicate]
  omega

/-! ### Helper lemmas: extensions -/

theorem lastIndexOfAux_eq_none {c : Char} {l : List Char} (h : ∀ x ∈ l, x ≠ c) :
    ∀ i, lastIndexOfAux c l i = none := by
  induction l with
  | nil => intro i; rfl
  | cons x xs ih =>
    intro i
    have hx : x ≠ c := h x (List.mem_cons_self x xs)
    have hxs : ∀ y ∈ xs, y ≠ c := fun y hy => h y (List.mem_cons_of_mem x hy)
    unfold lastIndexOfAux
    rw [ih hxs (i + 1)]
    simp [hx]

theorem jsExt_of_no_dot {name : String} (h : ∀ x ∈ name.data, x ≠ '.') :
    jsExt name = name := by
  unfold jsExt jsLastIndexOf
  rw [lastIndexOfAux_eq_none h 0]
  show jsSubstringFrom name (-1) = name
  unfold jsSubstringFrom
  show String.mk (name.data.drop 0) = name
  rw [List.drop_zero]

/-! ### Helper lemmas: archive entries -/

theorem buildEntries_length (settings : RenameSettings) :
    ∀ (l : List QueueItem) (j : Nat), (buildEntries settings l j).length = l.length := by
  intro l
  induction l with
  | nil => intro j; rfl
  | cons x xs ih => intro j; simpa [buildEntries] using ih (j + 1)

theorem buildEntries_getElem? (settings : RenameSettings) :
    ∀ (l : List QueueItem) (j i : Nat),
      (buildEntries settings l j)[i]? =
        l[i]?.map (fun item => (newName settings item (j + i), item.file)) := by
  intro l
  induction l with
  | nil => intro j i; simp [buildEntries]
  | cons x xs ih =>
    intro j i
    cases i with
    | zero => simp [buildEntries]
    | succ k =>
      simp only [buildEntries, List.getElem?_cons_succ, ih (j + 1) k]
      have : j + 1 + k = j + (k + 1) := by omega
      rw [this]

theorem buildEntries_mem (settings : RenameSettings) :
    ∀ (l : List QueueItem) (j : Nat) (e : String × FileData),
      e ∈ buildEntries settings l j → ∃ item ∈ l, e.2 = item.file := by
  intro l
  induction l with
  | nil => intro j e he; cases he
  | cons x xs ih =>
    intro j e he
    rcases List.mem_cons.mp he with rfl | hmem
    · exact ⟨x, List.mem_cons_self x xs, rfl⟩
    · obtain ⟨item, hitem, hfile⟩ := ih (j + 1) e hmem
      exact ⟨item, List.mem_cons_of_mem x hitem, hfile⟩

/-! ### Helper lemmas: the queue updates preserve ids and files -/

theorem setProcessing_id (id : String) (f : QueueItem) : (setProcessing id f).id = f.id := by
  unfold setProcessing; split <;> rfl

theorem setProcessing_file (id : String) (f : QueueItem) :
    (setProcessing id f).file = f.file := by
  unfold setProcessing; split <;> rfl

theorem setProcessing_aiTitle (id : String) (f : QueueItem) :
    (setProcessing id f).aiTitle = f.aiTitle := by
  unfold setProcessing; split <;> rfl

theorem applyOutcome_id (id : String) (o : CaptionOutcome) (f : QueueItem) :
    (applyOutcome id o f).id = f.id := by
  unfold applyOutcome; cases o <;> dsimp only <;> split <;> rfl

theorem applyOutcome_file (id : String) (o : CaptionOutcome) (f : QueueItem) :
    (applyOutcome id o f).file = f.file := by
  unfold applyOutcome; cases o <;> dsimp only <;> split <;> rfl

theorem map_id_of_id_preserving {g : QueueItem → QueueItem}
    (hg : ∀ f, (g f).id = f.id) (l : List QueueItem) :
    (l.map g).map QueueItem.id = l.map QueueItem.id := by
  rw [List.map_map]
  exact List.map_congr_left (fun a _ => hg a)

/-! ### Helper lemmas: freshly created items -/

theorem mkQueueItems_length (oracle : Nat → String) :
    ∀ (fs : List FileData) (n : Nat), (mkQueueItems oracle n fs).length = fs.length := by
  intro fs
  induction fs with
  | nil => intro n; rfl
  | cons f fs ih => intro n; simpa [mkQueueItems] using ih (n + 1)

theorem mkQueueItems_mem (oracle : Nat → String) :
    ∀ (fs : List FileData) (n : Nat) (item : QueueItem), item ∈ mkQueueItems oracle n fs →
      ∃ k, n ≤ k ∧ k < n + fs.length ∧ item.id = oracle k ∧
        item.aiTitle = none ∧ item.status = Status.idle := by
  intro fs
  induction fs with
  | nil => intro n item h; cases h
  | cons f fs ih =>
    intro n item h
    rcases List.mem_cons.mp h with rfl | hmem
    · exact ⟨n, le_refl n, by simp [mkQueueItems_length], rfl, rfl, rfl⟩
    · obtain ⟨k, hk1, hk2, hk3⟩ := ih (n + 1) item hmem
      refine ⟨k, by omega, ?_, hk3⟩
      simp only [List.length_cons]
      omega

theorem mkQueueItems_ids_nodup {oracle : Nat → String} (hinj : Function.Injective oracle) :
    ∀ (fs : List FileData) (n : Nat),
      ((mkQueueItems oracle n fs).map QueueItem.id).Nodup := by
  intro fs
  induction fs with
  | nil => intro n; simp [mkQueueItems]
  | cons f fs ih =>
    intro n
    rw [mkQueueItems]
    simp only [List.map_cons]
    rw [List.nodup_cons]
    refine ⟨?_, ih (n + 1)⟩
    intro hmem
    obtain ⟨item, hitem, hid⟩ := List.mem_map.mp hmem
    obtain ⟨k, hk1, _, hk3, _⟩ := mkQueueItems_mem oracle fs (n + 1) item hitem
    have : n = k := hinj (hid.symm.trans hk3)
    omega

theorem mkQueueItems_take (oracle : Nat → String) :
    ∀ (fs : List FileData) (n k : Nat),
      (mkQueueItems oracle n fs).take k = mkQueueItems oracle n (fs.take k) := by
  intro fs
  induction fs with
  | nil => intro n k; simp [mkQueueItems]
  | cons f fs ih =>
    intro n k
    cases k with
    | zero => rfl
    | succ m => simp [mkQueueItems, ih (n + 1) m]

/-! ### Helper lemmas: unique ids make item lookup unambiguous -/

theorem nodup_id_unique :
    ∀ {l : List QueueItem}, (l.map QueueItem.id).Nodup →
      ∀ a ∈ l, ∀ b ∈ l, a.id = b.id → a = b := by
  intro l
  induction l with
  | nil => intro _ a ha; cases ha
  | cons x xs ih =>
    intro hnd a ha b hb hab
    rw [List.map_cons, List.nodup_cons] at hnd
    rcases List.mem_cons.mp ha with rfl | ha' <;> rcases List.mem_cons.mp hb with rfl | hb'
    · rfl
    · exact absurd (List.mem_map.mpr ⟨b, hb', hab.symm⟩) hnd.1
    · exact absurd (List.mem_map.mpr ⟨a, ha', hab⟩) hnd.1
    · exact ih hnd.2 a ha' b hb' hab

theorem find?_id_of_nodup {l : List QueueItem} (hnd : (l.map QueueItem.id).Nodup)
    {a : QueueItem} (ha : a ∈ l) :
    l.find? (fun f => decide (f.id = a.id)) = some a := by
  have hsome : (l.find? (fun f => decide (f.id = a.id))).isSome := by
    rw [List.find?_isSome]
    exact ⟨a, ha, by simp⟩
  obtain ⟨b, hb⟩ := Option.isSome_iff_exists.mp hsome
  have hdec := List.find?_some hb
  simp only [decide_eq_true_eq] at hdec
  have hbid : b.id = a.id := hdec
  have hbmem : b ∈ l := List.mem_of_find?_eq_some hb
  rw [hb, nodup_id_unique hnd b hbmem a ha hbid]

theorem setProcessing_of_ne {id : String} {f : QueueItem} (h : f.id ≠ id) :
    setProcessing id f = f := by
  unfold setProcessing; rw [if_neg h]

theorem setProcessing_of_eq {id : String} {f : QueueItem} (h : f.id = id) :
    setProcessing id f = { f with status := Status.processing } := by
  unfold setProcessing; rw [if_pos h]

theorem applyOutcome_of_ne {id : String} {o : CaptionOutcome} {f : QueueItem} (h : f.id ≠ id) :
    applyOutcome id o f = f := by
  unfold applyOutcome; cases o <;> dsimp only <;> rw [if_neg h]

theorem applyOutcome_success_of_eq {id : String} {t : Option String} {f : QueueItem}
    (h : f.id = id) :
    applyOutcome id (CaptionOutcome.success t) f =
      { f with aiTitle := some (sanitizeCaption (jsOrDefault t placeholder)),
               status := Status.done } := by
  simp [applyOutcome, h]

theorem applyOutcome_failure_of_eq {id : String} {f : QueueItem} (h : f.id = id) :
    applyOutcome id CaptionOutcome.failure f = { f with status := Status.error } := by
  simp [applyOutcome, h]

theorem mkQueueItems_ids (oracle : Nat → String) :
    ∀ (fs : List FileData) (n : Nat),
      (mkQueueItems oracle n fs).map QueueItem.id =
        (List.range fs.length).map (fun i => oracle (n + i)) := by
  intro fs
  induction fs with
  | nil => intro n; rfl
  | cons f fs ih =>
    intro n
    rw [mkQueueItems]
    simp only [List.map_cons, List.length_cons, List.range_succ_eq_map, List.map_map]
    rw [ih (n + 1)]
    refine congrArg₂ List.cons (congrArg oracle (by omega)) ?_
    refine congrArg (fun g => List.map g (List.range fs.length)) ?_
    funext i
    show oracle (n + 1 + i) = oracle (n + Nat.succ i)
    exact congrArg oracle (by omega)

/-- A reachable queue never exceeds the 200-item cap (independently of the
random source). -/
theorem reachable_queue_length_le (oracle : Nat → String) :
    ∀ s, Reachable oracle s → s.uploadedFiles.length ≤ 200 := by
  intro s h
  induction h with
  | init => simp [initState]
  | @step s s2 hr hstep ih =>
    cases hstep with
    | enqueue files =>
      show ((s.uploadedFiles ++ _).take 200).length ≤ 200
      rw [List.length_take]
      omega
    | captionStart item hfind =>
      show (processFileWithAiStart s.uploadedFiles item.id).length ≤ 200
      unfold processFileWithAiStart
      split
      · rw [List.length_map]; exact ih
      · exact ih
    | captionResolve id outcome hid =>
      show (processFileWithAiResolve s.uploadedFiles id outcome).length ≤ 200
      unfold processFileWithAiResolve
      rw [List.length_map]
      exact ih
    | archive => exact ih
    | clear => simp [clearOp]

/-- The invariant `Inv` holds in every reachable state, provided the random
id source never repeats a draw. -/
theorem reachable_inv {oracle : Nat → String} (hinj : Function.Injective oracle) :
    ∀ s, Reachable oracle s → Inv oracle s := by
  intro s h
  induction h with
  | init =>
    exact ⟨rfl, fun item h => absurd h (List.not_mem_nil item), List.nodup_nil,
      fun id h => absurd h (List.not_mem_nil id), List.nodup_nil,
      fun id h => absurd h (List.not_mem_nil id),
      fun item h => absurd h (List.not_mem_nil item),
      fun item h => absurd h (List.not_mem_nil item)⟩
  | @step s s2 hr hstep ih =>
    cases hstep with
    | enqueue files =>
      have hmemq : ∀ item, item ∈ (enqueueOp oracle s files).uploadedFiles →
          item ∈ s.uploadedFiles ∨ item ∈ mkQueueItems oracle s.next files := by
        intro item h
        exact List.mem_append.mp (List.mem_of_mem_take h)
      refine ⟨?_, ?_, ?_, ?_, ?_, ?_, ?_, ?_⟩
      · show s.created ++ (mkQueueItems oracle s.next files).map QueueItem.id =
          (List.range (s.next + files.length)).map oracle
        rw [ih.created_eq, mkQueueItems_ids, List.range_add, List.map_append, List.map_map]
        rfl
      · intro item h
        rcases hmemq item h with h1 | h2
        · obtain ⟨k, hk, hid⟩ := ih.queue_ids item h1
          exact ⟨k, by simp only [enqueueOp]; omega, hid⟩
        · obtain ⟨k, hk1, hk2, hid, _, _⟩ := mkQueueItems_mem oracle files s.next item h2
          exact ⟨k, by simpa only [enqueueOp] using hk2, hid⟩
      · have hbig : ((s.uploadedFiles ++ mkQueueItems oracle s.next files).map
            QueueItem.id).Nodup := by
          rw [List.map_append, List.nodup_append]
          refine ⟨ih.queue_nodup, mkQueueItems_ids_nodup hinj files s.next, ?_⟩
          intro a ha hb
          obtain ⟨x, hx, hxa⟩ := List.mem_map.mp ha
          obtain ⟨y, hy, hya⟩ := List.mem_map.mp hb
          obtain ⟨k, hk, hxid⟩ := ih.queue_ids x hx
          obtain ⟨k2, hk21, hk22, hyid, _, _⟩ := mkQueueItems_mem oracle files s.next y hy
          have : k = k2 := hinj (by rw [← hxid, hxa, ← hya, hyid])
          omega
        exact hbig.sublist ((List.take_sublist 200 _).map QueueItem.id)
      · intro id h
        obtain ⟨k, hk, hid⟩ := ih.flight_ids id h
        exact ⟨k, by simp only [enqueueOp]; omega, hid⟩
      · exact ih.flight_nodup
      · intro id hidf item hitem hiid
        rcases hmemq item hitem with h1 | h2
        · exact ih.flight_processing id hidf item h1 hiid
        · exfalso
          obtain ⟨k, hk, hid⟩ := ih.flight_ids id hidf
          obtain ⟨k2, hk21, hk22, hid2, _, _⟩ := mkQueueItems_mem oracle files s.next item h2
          have : k2 = k := hinj (by rw [← hid2, hiid, hid])
          omega
      · intro item hitem
        rcases hmemq item hitem with h1 | h2
        · exact ih.title_iff_done item h1
        · obtain ⟨_, _, _, _, ht, hs⟩ := mkQueueItems_mem oracle files s.next item h2
          rw [ht, hs]
          simp
      · intro item hitem hni
        rcases hmemq item hitem with h1 | h2
        · exact ih.nonimage_idle item h1 hni
        · obtain ⟨_, _, _, _, _, hs⟩ := mkQueueItems_mem oracle files s.next item h2
          exact hs
    | captionStart item hfind =>
      have hmem : item ∈ s.uploadedFiles := List.mem_of_find?_eq_some hfind
      have hidle : item.status = Status.idle := by
        have := List.find?_some hfind
        simpa using this
      by_cases hg : captionGuard s.uploadedFiles item.id = true
      · -- the guard passed: the item found by id is `item` itself (unique ids)
        have hfindid : s.uploadedFiles.find? (fun f => decide (f.id = item.id)) = some item :=
          find?_id_of_nodup ih.queue_nodup hmem
        have himg : jsStartsWith item.file.type "image/" = true := by
          unfold captionGuard at hg
          rw [hfindid] at hg
          exact hg
        have hq : (captionStartOp s item.id).uploadedFiles =
            s.uploadedFiles.map (setProcessing item.id) := by
          show processFileWithAiStart s.uploadedFiles item.id = _
          unfold processFileWithAiStart
          rw [if_pos hg]
        have hfl : (captionStartOp s item.id).inFlight = s.inFlight ++ [item.id] := by
          show (if captionGuard s.uploadedFiles item.id then s.inFlight ++ [item.id]
            else s.inFlight) = _
          rw [if_pos hg]
        have hnotin : item.id ∉ s.inFlight := by
          intro hin
          have := ih.flight_processing item.id hin item hmem rfl
          rw [hidle] at this
          cases this
        refine ⟨ih.created_eq, ?_, ?_, ?_, ?_, ?_, ?_, ?_⟩
        · intro it hit
          rw [hq] at hit
          obtain ⟨orig, horig, rfl⟩ := List.mem_map.mp hit
          rw [setProcessing_id]
          exact ih.queue_ids orig horig
        · rw [hq, map_id_of_id_preserving (setProcessing_id item.id)]
          exact ih.queue_nodup
        · intro id hid
          rw [hfl] at hid
          rcases List.mem_append.mp hid with h1 | h2
          · exact ih.flight_ids id h1
          · rw [List.mem_singleton.mp h2]
            exact ih.queue_ids item hmem
        · rw [hfl]
          refine ih.flight_nodup.append (List.nodup_singleton item.id) ?_
          intro a ha hb
          rw [List.mem_singleton.mp hb] at ha
          exact hnotin ha
        · intro id hid it hit hitid
          rw [hfl] at hid
          rw [hq] at hit
          obtain ⟨orig, horig, rfl⟩ := List.mem_map.mp hit
          rw [setProcessing_id] at hitid
          rcases List.mem_append.mp hid with h1 | h2
          · have horigp : orig.status = Status.processing :=
              ih.flight_processing id h1 orig horig hitid
            have hne : orig.id ≠ item.id := by
              intro he
              have : orig = item := nodup_id_unique ih.queue_nodup orig horig item hmem he
              rw [this, hidle] at horigp
              cases horigp
            rw [setProcessing_of_ne hne]
            exact horigp
          · have he : orig.id = item.id := by rw [hitid, List.mem_singleton.mp h2]
            rw [setProcessing_of_eq he]
        · intro it hit
          rw [hq] at hit
          obtain ⟨orig, horig, rfl⟩ := List.mem_map.mp hit
          by_cases he : orig.id = item.id
          · have horigeq : orig = item := nodup_id_unique ih.queue_nodup orig horig item hmem he
            rw [setProcessing_of_eq he]
            have htit := ih.title_iff_done orig horig
            constructor
            · intro hsome
              exact absurd ((htit.mp hsome).symm.trans (horigeq ▸ hidle)) (by simp)
            · intro hdone
              cases hdone
          · rw [setProcessing_of_ne he]
            exact ih.title_iff_done orig horig
        · intro it hit hni
          rw [hq] at hit
          obtain ⟨orig, horig, rfl⟩ := List.mem_map.mp hit
          by_cases he : orig.id = item.id
          · exfalso
            have horigeq : orig = item := nodup_id_unique ih.queue_nodup orig horig item hmem he
            rw [setProcessing_of_eq he] at hni
            have : jsStartsWith orig.file.type "image/" = false := hni
            rw [horigeq, himg] at this
            cases this
          · rw [setProcessing_of_ne he] at hni ⊢
            exact ih.nonimage_idle orig horig hni
      · -- the guard failed: nothing changes
        have hq : (captionStartOp s item.id).uploadedFiles = s.uploadedFiles := by
          show processFileWithAiStart s.uploadedFiles item.id = _
          unfold processFileWithAiStart
          rw [if_neg hg]
        have hfl : (captionStartOp s item.id).inFlight = s.inFlight := by
          show (if captionGuard s.uploadedFiles item.id then s.inFlight ++ [item.id]
            else s.inFlight) = _
          rw [if_neg hg]
        exact ⟨ih.created_eq, by rw [hq]; exact ih.queue_ids, by rw [hq]; exact ih.queue_nodup,
          by rw [hfl]; exact ih.flight_ids, by rw [hfl]; exact ih.flight_nodup,
          by rw [hfl, hq]; exact ih.flight_processing,
          by rw [hq]; exact ih.title_iff_done, by rw [hq]; exact ih.nonimage_idle⟩
    | captionResolve id outcome hid =>
      have hq : (captionResolveOp s id outcome).uploadedFiles =
          s.uploadedFiles.map (applyOutcome id outcome) := rfl
      refine ⟨ih.created_eq, ?_, ?_, ?_, ?_, ?_, ?_, ?_⟩
      · intro it hit
        rw [hq] at hit
        obtain ⟨orig, horig, rfl⟩ := List.mem_map.mp hit
        rw [applyOutcome_id]
        exact ih.queue_ids orig horig
      · rw [hq, map_id_of_id_preserving (applyOutcome_id id outcome)]
        exact ih.queue_nodup
      · intro id2 hid2
        exact ih.flight_ids id2 (List.mem_of_mem_erase hid2)
      · exact ih.flight_nodup.erase id
      · intro id2 hid2 it hit hitid
        have hid2' := (ih.flight_nodup.mem_erase_iff).mp hid2
        rw [hq] at hit
        obtain ⟨orig, horig, rfl⟩ := List.mem_map.mp hit
        rw [applyOutcome_id] at hitid
        have hne : orig.id ≠ id := by rw [hitid]; exact hid2'.1
        rw [applyOutcome_of_ne hne]
        exact ih.flight_processing id2 hid2'.2 orig horig hitid
      · intro it hit
        rw [hq] at hit
        obtain ⟨orig, horig, rfl⟩ := List.mem_map.mp hit
        by_cases he : orig.id = id
        · have horigp : orig.status = Status.processing :=
            ih.flight_processing id hid orig horig he
          have hnos : orig.aiTitle.isSome = false := by
            cases ho : orig.aiTitle.isSome
            · rfl
            · exact absurd (((ih.title_iff_done orig horig).mp ho).symm.trans horigp) (by simp)
          cases outcome with
          | success t =>
            rw [applyOutcome_success_of_eq he]
            simp
          | failure =>
            rw [applyOutcome_failure_of_eq he]
            constructor
            · intro hsome
              rw [hnos] at hsome
              cases hsome
            · intro hdone
              cases hdone
        · rw [applyOutcome_of_ne he]
          exact ih.title_iff_done orig horig
      · intro it hit hni
        rw [hq] at hit
        obtain ⟨orig, horig, rfl⟩ := List.mem_map.mp hit
        by_cases he : orig.id = id
        · exfalso
          have horigp : orig.status = Status.processing :=
            ih.flight_processing id hid orig horig he
          have hof : (applyOutcome id outcome orig).file = orig.file := applyOutcome_file id outcome orig
          rw [hof] at hni
          have := ih.nonimage_idle orig horig hni
          rw [horigp] at this
          cases this
        · rw [applyOutcome_of_ne he] at hni ⊢
          exact ih.nonimage_idle orig horig hni
    | archive => exact ih
    | clear =>
      exact ⟨ih.created_eq, fun item h => absurd h (List.not_mem_nil item), List.nodup_nil,
        ih.flight_ids, ih.flight_nodup,
        fun id hid item h => absurd h (List.not_mem_nil item),
        fun item h => absurd h (List.not_mem_nil item),
        fun item h => absurd h (List.not_mem_nil item)⟩

/-! ### Helper lemmas: guard branches, status order, demo reachability -/

theorem statusLE_refl (st : Status) : statusLE st st = true := by cases st <;> rfl

theorem processFileWithAiStart_guard_true {queue : List QueueItem} {id : String}
    (hg : captionGuard queue id = true) :
    processFileWithAiStart queue id = queue.map (setProcessing id) := by
  unfold processFileWithAiStart
  rw [if_pos hg]

theorem processFileWithAiStart_guard_false {queue : List QueueItem} {id : String}
    (hg : captionGuard queue id = false) :
    processFileWithAiStart queue id = queue := by
  unfold processFileWithAiStart
  rw [hg]
  exact if_neg (by simp)

theorem wOracle_inj : Function.Injective wOracle := by
  intro a b h
  have h2 : List.replicate a 'a' = List.replicate b 'a' := by injection h
  have h3 := congrArg List.length h2
  simpa using h3

theorem reachable_demoS3 : Reachable constOracle demoS3 :=
  Reachable.step
    (Reachable.step
      (Reachable.step Reachable.init (Step.enqueue initState [fileA]))
      (Step.captionStart demoS1
        { file := fileA, id := "x", aiTitle := none, status := Status.idle } (by decide)))
    (Step.captionResolve demoS2 "x" (CaptionOutcome.success (some "nice-photo")) (by decide))

theorem reachable_demoS4 : Reachable constOracle demoS4 :=
  Reachable.step reachable_demoS3 (Step.enqueue demoS3 [fileB])

theorem step_demoS4_demoS5 : Step constOracle demoS4 demoS5 :=
  Step.captionStart demoS4
    { file := fileB, id := "x", aiTitle := none, status := Status.idle } (by decide)

theorem reachable_demoS5 : Reachable constOracle demoS5 :=
  Reachable.step reachable_demoS4 step_demoS4_demoS5

theorem reachable_demoT6 : Reachable constOracle demoT6 :=
  Reachable.step
    (Reachable.step
      (Reachable.step reachable_demoS3 (Step.enqueue demoS3 [fileC]))
      (Step.captionStart demoT4
        { file := fileC, id := "x", aiTitle := none, status := Status.idle } (by decide)))
    (Step.captionResolve demoT5 "x" (CaptionOutcome.success (some "oops")) (by decide))

theorem reachable_wS1 : Reachable wOracle wS1 :=
  Reachable.step Reachable.init (Step.enqueue initState [jpegFile])

theorem step_wS1_wS2 : Step wOracle wS1 wS2 :=
  Step.captionStart wS1
    { file := jpegFile, id := "", aiTitle := none, status := Status.idle } (by decide)

theorem reachable_wS2 : Reachable wOracle wS2 :=
  Reachable.step reachable_wS1 step_wS1_wS2

theorem reachable_wS3 : Reachable wOracle wS3 :=
  Reachable.step reachable_wS2
    (Step.captionResolve wS2 "" (CaptionOutcome.success (some "t")) (by decide))

/-! ### Claim C1 -/

/-- Claim C1: for every call to `downloadRenamedFiles` with a non-empty set
of `done` items, the archive receives exactly one entry per done item, in
current queue order, named `captionText ++ "-" ++ sequenceNumber ++ extension`
where the sequence number is `startNumber + index` (0-based index among the
filtered done items) rendered in decimal and left-padded with `'0'` to
`zeroPad` digits; padding only ever adds digits (the unpadded numeral stays
a suffix, the length is `max zeroPad digits`, never less); and the spec §8
scenario (one done JPEG captioned `"blue-sky-over-mountains"`, settings
`{startNumber := 5, zeroPad := 3}`) yields the single entry
`"blue-sky-over-mountains-005.jpg"`. -/
theorem c1_archive_entries (queue : List QueueItem) (settings : RenameSettings)
    (hne : queue.filter (fun f => decide (f.status = Status.done)) ≠ []) :
    ∃ entries, downloadRenamedFiles queue settings = Except.ok entries ∧
      entries.length = (queue.filter (fun f => decide (f.status = Status.done))).length ∧
      (∀ (i : Nat) (item : QueueItem) (cap : String),
        (queue.filter (fun f => decide (f.status = Status.done)))[i]? = some item →
        item.aiTitle = some cap →
        entries[i]? = some
          (cap ++ "-" ++
            padStart (intRepr (settings.startNumber + (i : Int))) settings.zeroPad '0' ++
            jsExt item.file.name, item.file)) ∧
      (∀ (n : Int) (w : Nat),
        List.IsSuffix (intRepr n).data (padStart (intRepr n) w '0').data ∧
        (padStart (intRepr n) w '0').length = max w (intRepr n).length) ∧
      downloadRenamedFiles scenQueue { startNumber := 5, zeroPad := 3 } =
        Except.ok [("blue-sky-over-mountains-005.jpg", jpegFile)] := by
  have hlen : ¬ (queue.filter (fun f => decide (f.status = Status.done))).length = 0 := by
    intro h0
    exact hne (List.eq_nil_of_length_eq_zero h0)
  refine ⟨buildEntries settings (queue.filter (fun f => decide (f.status = Status.done))) 0,
    ?_, buildEntries_length settings _ 0, ?_, ?_, rfl⟩
  · unfold downloadRenamedFiles
    rw [if_neg hlen]
  · intro i item cap hitem hcap
    rw [buildEntries_getElem? settings _ 0 i, hitem]
    show some (newName settings item (0 + i), item.file) = _
    rw [Nat.zero_add]
    unfold newName jsTemplate
    rw [hcap]
  · intro n w
    exact ⟨padStart_suffix (intRepr n) w '0', padStart_length (intRepr n) w '0'⟩

/-- Witness for C1: a queue with one done JPEG captioned
`"blue-sky-over-mountains"` under settings `{startNumber := 5, zeroPad := 3}`
produces an archive with exactly one entry. -/
theorem c1_archive_entries_witness :
    ∃ entries, downloadRenamedFiles c1DemoQueue c1DemoSettings = Except.ok entries ∧
      entries.length = 1 := by
  obtain ⟨entries, h1, h2, _⟩ := c1_archive_entries c1DemoQueue c1DemoSettings (by decide)
  exact ⟨entries, h1, by rw [h2]; rfl⟩

/-! ### Claim C8 -/

/-- Claim C8: when the queue contains zero `done` items, `downloadRenamedFiles`
reports the user-facing error (`alert("No files processed by AI yet.")`,
the spec's `EmptyBatchError`) and produces no archive: no `ok` result exists,
and — the operation being a pure function of the queue and settings — neither
the queue nor the settings are touched. -/
theorem c8_empty_batch (queue : List QueueItem) (settings : RenameSettings)
    (h : queue.filter (fun f => decide (f.status = Status.done)) = []) :
    downloadRenamedFiles queue settings = Except.error "No files processed by AI yet." ∧
    ∀ entries, downloadRenamedFiles queue settings ≠ Except.ok entries := by
  have h0 : (queue.filter (fun f => decide (f.status = Status.done))).length = 0 := by
    rw [h]
    rfl
  have herr : downloadRenamedFiles queue settings =
      Except.error "No files processed by AI yet." := by
    unfold downloadRenamedFiles
    rw [if_pos h0]
  refine ⟨herr, ?_⟩
  intro entries hok
  rw [herr] at hok
  exact Except.noConfusion hok

/-- Witness for C8: a queue holding only an idle item. -/
theorem c8_empty_batch_witness :
    downloadRenamedFiles [c3Item] c1DemoSettings =
      Except.error "No files processed by AI yet." ∧
    ∀ entries, downloadRenamedFiles [c3Item] c1DemoSettings ≠ Except.ok entries :=
  c8_empty_batch [c3Item] c1DemoSettings (by decide)

/-! ### Claim C10 -/

/-- Claim C10: for a filename containing no `'.'`, `lastIndexOf('.')` is `-1`
and `substring(-1)` clamps to position 0, so the computed "extension" is the
entire original filename, and the archive entry name is
`captionText ++ "-" ++ paddedNumber` followed by the whole original filename
(not an empty extension). -/
theorem c10_extensionless (name : String) (hnd : ∀ c ∈ name.data, c ≠ '.')
    (settings : RenameSettings) (item : QueueItem) (index : Nat)
    (hname : item.file.name = name) :
    jsExt name = name ∧
    newName settings item index =
      jsTemplate item.aiTitle ++ "-" ++
        padStart (intRepr (settings.startNumber + (index : Int))) settings.zeroPad '0' ++
        name := by
  have h1 := jsExt_of_no_dot hnd
  refine ⟨h1, ?_⟩
  unfold newName
  rw [hname, h1]

/-- Witness for C10: a done item whose original filename is `"README"`. -/
theorem c10_extensionless_witness :
    jsExt "README" = "README" ∧
    newName { startNumber := 1, zeroPad := 2 }
        { file := { name := "README", type := "image/png" }, id := "z",
          aiTitle := some "cap", status := Status.done } 0 =
      jsTemplate (some "cap") ++ "-" ++
        padStart (intRepr ((1 : Int) + ((0 : Nat) : Int))) 2 '0' ++ "README" :=
  c10_extensionless "README" (by decide) { startNumber := 1, zeroPad := 2 }
    { file := { name := "README", type := "image/png" }, id := "z",
      aiTitle := some "cap", status := Status.done } 0 rfl

/-! ### Claim C2 -/

/-- Claim C2 counterexample: the code first applies `.trim()`, which the
claim's pipeline (lower-case, collapse whitespace runs to hyphens, strip,
truncate) omits.  For the service text `" x"` the code stores `"x"`, while
the claim's formula produces `"-x"` (the leading whitespace run collapses to
a hyphen instead of being trimmed), so the stored caption differs from the
claim's formula. -/
theorem c2_caption_formula_counterexample :
    processFileWithAiResolve [c9Item] "x" (CaptionOutcome.success (some " x")) =
      [{ file := fileA, id := "x", aiTitle := some "x", status := Status.done }] ∧
    claimClean " x" = "-x" ∧
    ("x" : String) ≠ "-x" := ⟨by decide, by decide, by decide⟩

/-- Claim C2 (amended): the stored caption equals the claim's pipeline applied
to the **trimmed** service text (trim, then lower-case, collapse whitespace
runs to single hyphens, strip characters outside `[a-z0-9-]`, truncate to
190); consequently every successful caption consists solely of `[a-z0-9-]`
characters, has length at most 190, and contains no whitespace. -/
theorem c2_caption_pipeline_amended (queue : List QueueItem) (id : String)
    (t : Option String) (item' : QueueItem)
    (hmem : item' ∈ processFileWithAiResolve queue id (CaptionOutcome.success t))
    (hid : item'.id = id) :
    ∃ cap, item'.aiTitle = some cap ∧
      cap = claimClean (String.mk (jsTrim (jsOrDefault t placeholder).data)) ∧
      (∀ c ∈ cap.data, isAllowedChar c = true) ∧
      cap.length ≤ 190 ∧
      (∀ c ∈ cap.data, c.isWhitespace = false) := by
  obtain ⟨orig, horig, rfl⟩ := List.mem_map.mp hmem
  rw [applyOutcome_id] at hid
  rw [applyOutcome_success_of_eq hid]
  refine ⟨sanitizeCaption (jsOrDefault t placeholder), rfl, rfl, ?_, sanitizeCaption_length_le _, ?_⟩
  · intro c hc
    exact sanitizeCaption_allowed hc
  · intro c hc
    exact isAllowedChar_not_whitespace (sanitizeCaption_allowed hc)

/-- Witness for the amended C2: the service text `" Hello World "` is stored
as `"hello-world"`. -/
theorem c2_caption_pipeline_amended_witness :
    ∃ cap,
      ({ file := fileA, id := "x", aiTitle := some "hello-world",
         status := Status.done } : QueueItem).aiTitle = some cap ∧
      cap = claimClean (String.mk (jsTrim (jsOrDefault (some " Hello World ") placeholder).data)) ∧
      (∀ c ∈ cap.data, isAllowedChar c = true) ∧
      cap.length ≤ 190 ∧
      (∀ c ∈ cap.data, c.isWhitespace = false) :=
  c2_caption_pipeline_amended [c9Item] "x" (some " Hello World ")
    { file := fileA, id := "x", aiTitle := some "hello-world", status := Status.done }
    (by decide) (by decide)

/-! ### Claim C9 -/

/-- Claim C9: when the remote call fails (rejection anywhere in the `try`
block) the item is marked `error` with every other field — in particular
`aiTitle` — unchanged, and no retry path exists; the placeholder
`"high-fidelity-image-description"` is substituted for the caption only when
the call resolves successfully but its text is absent or empty, in which
case the item still reaches `done`; a successful non-empty text is stored
sanitized, not replaced by the placeholder. -/
theorem c9_failure_and_placeholder (queue : List QueueItem) (id : String) (i : Nat)
    (item : QueueItem) (hq : queue[i]? = some item) (hid : item.id = id) :
    (processFileWithAiResolve queue id CaptionOutcome.failure)[i]? =
        some { item with status := Status.error } ∧
    (∀ t, (t = none ∨ t = some "") →
      (processFileWithAiResolve queue id (CaptionOutcome.success t))[i]? =
        some { item with aiTitle := some (sanitizeCaption placeholder),
                         status := Status.done }) ∧
    sanitizeCaption placeholder = placeholder ∧
    (∀ str : String, str ≠ "" →
      (processFileWithAiResolve queue id (CaptionOutcome.success (some str)))[i]? =
        some { item with aiTitle := some (sanitizeCaption str),
                         status := Status.done }) := by
  refine ⟨?_, ?_, by decide, ?_⟩
  · unfold processFileWithAiResolve
    rw [List.getElem?_map, hq]
    show some (applyOutcome id CaptionOutcome.failure item) = _
    rw [applyOutcome_failure_of_eq hid]
  · intro t ht
    unfold processFileWithAiResolve
    rw [List.getElem?_map, hq]
    show some (applyOutcome id (CaptionOutcome.success t) item) = _
    rw [applyOutcome_success_of_eq hid]
    rcases ht with rfl | rfl <;> rfl
  · intro str hstr
    unfold processFileWithAiResolve
    rw [List.getElem?_map, hq]
    show some (applyOutcome id (CaptionOutcome.success (some str)) item) = _
    rw [applyOutcome_success_of_eq hid]
    have : jsOrDefault (some str) placeholder = str := by
      simp [jsOrDefault, hstr]
    rw [this]

/-- Witness for C9, instantiated on a single processing item. -/
theorem c9_failure_and_placeholder_witness :
    (processFileWithAiResolve [c9Item] "x" CaptionOutcome.failure)[0]? =
        some { c9Item with status := Status.error } ∧
    (∀ t, (t = none ∨ t = some "") →
      (processFileWithAiResolve [c9Item] "x" (CaptionOutcome.success t))[0]? =
        some { c9Item with aiTitle := some (sanitizeCaption placeholder),
                           status := Status.done }) ∧
    sanitizeCaption placeholder = placeholder ∧
    (∀ str : String, str ≠ "" →
      (processFileWithAiResolve [c9Item] "x" (CaptionOutcome.success (some str)))[0]? =
        some { c9Item with aiTitle := some (sanitizeCaption str),
                           status := Status.done }) :=
  c9_failure_and_placeholder [c9Item] "x" 0 c9Item (by decide) (by decide)

/-! ### Claim C3 -/

/-- Claim C3: enqueueing `N` files onto a queue of `M` items with
`M + N > 200` yields exactly 200 items — the original `M` in their original
order followed by the items built from the first `200 − M` of the new files
— with no error for the discarded overflow (`addFilesToQueue` is total and
just slices); and a reachable queue never exceeds 200 items. -/
theorem c3_queue_cap (oracle : Nat → String) (next : Nat) (prev : List QueueItem)
    (files : List FileData) (hM : prev.length ≤ 200)
    (hover : 200 < prev.length + files.length) :
    (addFilesToQueue oracle next prev files).length = 200 ∧
    addFilesToQueue oracle next prev files =
      prev ++ mkQueueItems oracle next (files.take (200 - prev.length)) ∧
    (∀ (oracle2 : Nat → String) (s : AppState), Reachable oracle2 s →
      s.uploadedFiles.length ≤ 200) := by
  refine ⟨?_, ?_, fun oracle2 s h => reachable_queue_length_le oracle2 s h⟩
  · unfold addFilesToQueue
    rw [List.length_take, List.length_append, mkQueueItems_length]
    omega
  · unfold addFilesToQueue
    rw [List.take_append_eq_append_take, List.take_of_length_le hM, mkQueueItems_take]

/-- Witness for C3: 199 queued items plus 2 incoming files. -/
theorem c3_queue_cap_witness :
    (addFilesToQueue constOracle 0 (List.replicate 199 c3Item) [fileA, fileB]).length = 200 ∧
    addFilesToQueue constOracle 0 (List.replicate 199 c3Item) [fileA, fileB] =
      List.replicate 199 c3Item ++
        mkQueueItems constOracle 0
          ([fileA, fileB].take (200 - (List.replicate 199 c3Item).length)) ∧
    (∀ (oracle2 : Nat → String) (s : AppState), Reachable oracle2 s →
      s.uploadedFiles.length ≤ 200) :=
  c3_queue_cap constOracle 0 (List.replicate 199 c3Item) [fileA, fileB]
    (by rw [List.length_replicate]; omega)
    (by simp only [List.length_replicate, List.length_cons, List.length_nil]; omega)

/-! ### Claim C4 -/

/-- Claim C4 counterexample: ids come from `Math.random()` with no
uniqueness enforcement.  Under a random stream that repeats a value
(`constOracle`), one enqueue of two files creates two distinct `QueueItem`s
(different file names) carrying the same id `"x"`, in a reachable session
state whose created-id ledger `["x", "x"]` has a duplicate — so id
uniqueness across the queue's lifetime does not hold as stated. -/
theorem c4_id_unique_counterexample :
    Reachable constOracle c4DemoState ∧
    c4DemoState.uploadedFiles[0]? ≠ c4DemoState.uploadedFiles[1]? ∧
    c4DemoState.uploadedFiles[0]?.map QueueItem.id = some "x" ∧
    c4DemoState.uploadedFiles[1]?.map QueueItem.id = some "x" ∧
    ¬ c4DemoState.created.Nodup :=
  ⟨Reachable.step Reachable.init (Step.enqueue initState [fileA, fileB]),
    by decide, by decide, by decide, by decide⟩

/-- Claim C4 (amended): id uniqueness holds exactly as inherited from the
random source — if the session's id stream never repeats a draw, then every
id ever created during the session is distinct (even across removals), and
any two queued items with equal ids are the same item. -/
theorem c4_id_unique_amended {oracle : Nat → String} (hinj : Function.Injective oracle)
    (s : AppState) (h : Reachable oracle s) :
    s.created.Nodup ∧
    (∀ a ∈ s.uploadedFiles, ∀ b ∈ s.uploadedFiles, a.id = b.id → a = b) := by
  have inv := reachable_inv hinj s h
  constructor
  · rw [inv.created_eq]
    exact (List.nodup_range s.next).map hinj
  · exact nodup_id_unique inv.queue_nodup

/-- Witness for the amended C4, at the injective stream after one enqueue. -/
theorem c4_id_unique_amended_witness :
    wS1.created.Nodup ∧
    (∀ a ∈ wS1.uploadedFiles, ∀ b ∈ wS1.uploadedFiles, a.id = b.id → a = b) :=
  c4_id_unique_amended wOracle_inj wS1 reachable_wS1

/-! ### Claim C5 -/

/-- Claim C5 counterexample: status transitions are **not** always forward.
In the reachable collision trace, a `done` item (id `"x"`, caption kept) is
flipped back to `processing` by one program step: the reactive driver picks
the idle second item, `processFileWithAi` re-finds by id — hitting the first,
already-`done` item, which passes the image guard — and the by-id map sets
every item with that id to `processing`.  `statusLE done processing` is
false, refuting the forward-only transition claim. -/
theorem c5_forward_counterexample :
    Reachable constOracle demoS4 ∧ Step constOracle demoS4 demoS5 ∧
    demoS4.uploadedFiles[0]? =
      some { file := fileA, id := "x", aiTitle := some "nice-photo",
             status := Status.done } ∧
    demoS5.uploadedFiles[0]? =
      some { file := fileA, id := "x", aiTitle := some "nice-photo",
             status := Status.processing } ∧
    statusLE Status.done Status.processing = false :=
  ⟨reachable_demoS4, step_demoS4_demoS5, by decide, by decide, by decide⟩

/-- Claim C5 (amended): provided the session's id stream never repeats a
draw (so ids are pairwise distinct — not enforced by the code, see the
counterexample), every program step moves every item's status only forward
along `idle → processing → {done | error}`: whenever an item in the pre-state
and an item in the post-state share an id, their statuses are related by
`statusLE`. -/
theorem c5_forward_amended {oracle : Nat → String} (hinj : Function.Injective oracle)
    {s s2 : AppState} (hr : Reachable oracle s) (hstep : Step oracle s s2) :
    ∀ a ∈ s.uploadedFiles, ∀ b ∈ s2.uploadedFiles, a.id = b.id →
      statusLE a.status b.status = true := by
  have inv := reachable_inv hinj s hr
  intro a ha b hb hab
  cases hstep with
  | enqueue files =>
    rcases List.mem_append.mp (List.mem_of_mem_take hb) with h1 | h2
    · have : a = b := nodup_id_unique inv.queue_nodup a ha b h1 hab
      rw [this]
      exact statusLE_refl b.status
    · exfalso
      obtain ⟨k, hk, hida⟩ := inv.queue_ids a ha
      obtain ⟨k2, hk21, _, hidb, _, _⟩ := mkQueueItems_mem oracle files s.next b h2
      have : k = k2 := hinj (by rw [← hida, hab, hidb])
      omega
  | captionStart item hfind =>
    have hmem : item ∈ s.uploadedFiles := List.mem_of_find?_eq_some hfind
    have hidle : item.status = Status.idle := by simpa using List.find?_some hfind
    by_cases hg : captionGuard s.uploadedFiles item.id = true
    · have hq : (captionStartOp s item.id).uploadedFiles =
          s.uploadedFiles.map (setProcessing item.id) :=
        processFileWithAiStart_guard_true hg
      rw [hq] at hb
      obtain ⟨orig, horig, rfl⟩ := List.mem_map.mp hb
      rw [setProcessing_id] at hab
      have haorig : a = orig := nodup_id_unique inv.queue_nodup a ha orig horig hab
      by_cases he : orig.id = item.id
      · have horigeq : orig = item := nodup_id_unique inv.queue_nodup orig horig item hmem he
        rw [setProcessing_of_eq he, haorig, horigeq, hidle]
        rfl
      · rw [setProcessing_of_ne he, haorig]
        exact statusLE_refl orig.status
    · have hq : (captionStartOp s item.id).uploadedFiles = s.uploadedFiles :=
        processFileWithAiStart_guard_false (by simpa using hg)
      rw [hq] at hb
      have : a = b := nodup_id_unique inv.queue_nodup a ha b hb hab
      rw [this]
      exact statusLE_refl b.status
  | captionResolve id outcome hid =>
    have hq : (captionResolveOp s id outcome).uploadedFiles =
        s.uploadedFiles.map (applyOutcome id outcome) := rfl
    rw [hq] at hb
    obtain ⟨orig, horig, rfl⟩ := List.mem_map.mp hb
    rw [applyOutcome_id] at hab
    have haorig : a = orig := nodup_id_unique inv.queue_nodup a ha orig horig hab
    by_cases he : orig.id = id
    · have horigp : orig.status = Status.processing :=
        inv.flight_processing id hid orig horig he
      cases outcome with
      | success t =>
        rw [applyOutcome_success_of_eq he, haorig, horigp]
        rfl
      | failure =>
        rw [applyOutcome_failure_of_eq he, haorig, horigp]
        rfl
    · rw [applyOutcome_of_ne he, haorig]
      exact statusLE_refl orig.status
  | archive =>
    have : a = b := nodup_id_unique inv.queue_nodup a ha b hb hab
    rw [this]
    exact statusLE_refl b.status
  | clear => exact absurd hb (List.not_mem_nil b)

/-- Witness for the amended C5: the captioning step of the injective-stream
trace, applied to the one item of `wS1` (idle) and its updated form in `wS2`
(processing): `statusLE` holds. -/
theorem c5_forward_amended_witness :
    statusLE
      ({ file := jpegFile, id := "", aiTitle := none,
         status := Status.idle } : QueueItem).status
      ({ file := jpegFile, id := "", aiTitle := none,
         status := Status.processing } : QueueItem).status = true :=
  c5_forward_amended wOracle_inj reachable_wS1 step_wS1_wS2
    { file := jpegFile, id := "", aiTitle := none, status := Status.idle } (by decide)
    { file := jpegFile, id := "", aiTitle := none, status := Status.processing } (by decide)
    rfl

/-! ### Claim C6 -/

/-- Claim C6 counterexample: `captionText` present is **not** equivalent to
`status == done` in every reachable state.  In the reachable collision state
the first item keeps its caption (`aiTitle` is `some "nice-photo"`) while its
status has been flipped back to `processing` by an id-colliding caption
step. -/
theorem c6_caption_iff_done_counterexample :
    Reachable constOracle demoS5 ∧
    demoS5.uploadedFiles[0]? =
      some { file := fileA, id := "x", aiTitle := some "nice-photo",
             status := Status.processing } ∧
    (some "nice-photo" : Option String).isSome = true ∧
    Status.processing ≠ Status.done :=
  ⟨reachable_demoS5, by decide, by decide, by decide⟩

/-- Claim C6 (amended): provided the session's id stream never repeats a
draw, in every reachable state an item's `aiTitle` (`captionText`) is
present if and only if its status is `done`. -/
theorem c6_caption_iff_done_amended {oracle : Nat → String}
    (hinj : Function.Injective oracle) (s : AppState) (h : Reachable oracle s) :
    ∀ item ∈ s.uploadedFiles, item.aiTitle.isSome = true ↔ item.status = Status.done :=
  (reachable_inv hinj s h).title_iff_done

/-- Witness for the amended C6, applied to the one `done` item of the
injective-stream state `wS3`: caption present and status `done`. -/
theorem c6_caption_iff_done_amended_witness :
    ({ file := jpegFile, id := "", aiTitle := some "t",
       status := Status.done } : QueueItem).aiTitle.isSome = true ↔
    ({ file := jpegFile, id := "", aiTitle := some "t",
       status := Status.done } : QueueItem).status = Status.done :=
  c6_caption_iff_done_amended wOracle_inj wS3 reachable_wS3
    { file := jpegFile, id := "", aiTitle := some "t", status := Status.done } (by decide)

/-! ### Claim C7 -/

/-- Claim C7 counterexample: a non-image item does **not** always remain
`idle` and excluded from archives.  In the reachable collision trace the
`"text/plain"` item shares its id with an already-`done` image item; the
caption step's by-id lookup hits the image item, passes the guard, and the
by-id maps drag the non-image item to `processing` and then `done` with a
caption — after which `downloadRenamedFiles` puts the non-image file into
the archive (second entry, `"oops-02.txt"`). -/
theorem c7_nonimage_counterexample :
    Reachable constOracle demoT6 ∧
    demoT6.uploadedFiles[1]? =
      some { file := fileC, id := "x", aiTitle := some "oops",
             status := Status.done } ∧
    jsStartsWith fileC.type "image/" = false ∧
    downloadRenamedFiles demoT6.uploadedFiles { startNumber := 1, zeroPad := 2 } =
      Except.ok [("oops-01.jpg", fileA), ("oops-02.txt", fileC)] :=
  ⟨reachable_demoT6, by decide, by decide, rfl⟩

/-- Claim C7 (amended): a `processFileWithAi` call whose by-id lookup finds
nothing, or finds an item whose declared media type does not start with
`"image/"`, leaves the queue unchanged (no field of any item changes); and
provided the session's id stream never repeats a draw, in every reachable
state every non-image item still has status `idle` and every archive entry
ever produced carries an image file. -/
theorem c7_nonimage_amended (oracle : Nat → String) (hinj : Function.Injective oracle)
    (s : AppState) (hr : Reachable oracle s) :
    (∀ id, s.uploadedFiles.find? (fun f => decide (f.id = id)) = none →
      processFileWithAiStart s.uploadedFiles id = s.uploadedFiles) ∧
    (∀ id it, s.uploadedFiles.find? (fun f => decide (f.id = id)) = some it →
      jsStartsWith it.file.type "image/" = false →
      processFileWithAiStart s.uploadedFiles id = s.uploadedFiles) ∧
    (∀ item ∈ s.uploadedFiles, jsStartsWith item.file.type "image/" = false →
      item.status = Status.idle) ∧
    (∀ settings entries, downloadRenamedFiles s.uploadedFiles settings = Except.ok entries →
      ∀ e ∈ entries, jsStartsWith e.2.type "image/" = true) := by
  have inv := reachable_inv hinj s hr
  refine ⟨?_, ?_, inv.nonimage_idle, ?_⟩
  · intro id hnone
    refine processFileWithAiStart_guard_false ?_
    unfold captionGuard
    rw [hnone]
  · intro id it hfind hni
    refine processFileWithAiStart_guard_false ?_
    unfold captionGuard
    rw [hfind]
    exact hni
  · intro settings entries hdl e he
    by_cases h0 : (s.uploadedFiles.filter (fun f => decide (f.status = Status.done))).length = 0
    · exfalso
      unfold downloadRenamedFiles at hdl
      rw [if_pos h0] at hdl
      exact Except.noConfusion hdl
    · unfold downloadRenamedFiles at hdl
      rw [if_neg h0] at hdl
      have hentries : entries =
          buildEntries settings
            (s.uploadedFiles.filter (fun f => decide (f.status = Status.done))) 0 :=
        (Except.ok.inj hdl).symm
      rw [hentries] at he
      obtain ⟨item, hitem, hfile⟩ := buildEntries_mem settings _ 0 e he
      have hmem : item ∈ s.uploadedFiles := (List.mem_filter.mp hitem).1
      have hdone : item.status = Status.done := by
        have := (List.mem_filter.mp hitem).2
        simpa using this
      cases himg : jsStartsWith e.2.type "image/"
      · exfalso
        rw [hfile] at himg
        have := inv.nonimage_idle item hmem himg
        rw [hdone] at this
        cases this
      · rfl

/-- Witness for the amended C7, at the injective-stream state whose queue
holds one captioned image item. -/
theorem c7_nonimage_amended_witness :
    (∀ id, wS3.uploadedFiles.find? (fun f => decide (f.id = id)) = none →
      processFileWithAiStart wS3.uploadedFiles id = wS3.uploadedFiles) ∧
    (∀ id it, wS3.uploadedFiles.find? (fun f => decide (f.id = id)) = some it →
      jsStartsWith it.file.type "image/" = false →
      processFileWithAiStart wS3.uploadedFiles id = wS3.uploadedFiles) ∧
    (∀ item ∈ wS3.uploadedFiles, jsStartsWith item.file.type "image/" = false →
      item.status = Status.idle) ∧
    (∀ settings entries, downloadRenamedFiles wS3.uploadedFiles settings = Except.ok entries →
      ∀ e ∈ entries, jsStartsWith e.2.type "image/" = true) :=
  c7_nonimage_amended wOracle wOracle_inj wS3 reachable_wS3

end VisionRenamer
